import Mathlib

/-!
Verification development for the streaming audio chunk pipeline of
`elevenlabslib` (`src/elevenlabslib/ElevenLabsVoice.py`, class
`_AudioChunkStreamer`).  The Python code is shallowly embedded: the shared
`io.BytesIO` buffer becomes a list of bytes with a read head, the
`threading.Event` latches become booleans, and the three cooperating
threads (downloader, feed loop, real-time playback callback) become
explicit step functions or interleaved transition systems.
-/

namespace ElevenLabsLib

/-- `_playbackBlockSize = 2048` (frames). -/
def playbackBlockSizeDefault : Nat := 2048

/-- `_downloadChunkSize = 4096` (bytes). -/
def downloadChunkSizeDefault : Nat := 4096

/-- The shared byte store `self._bytesFile : io.BytesIO`: the backing byte
sequence plus the current head position (`tell()`).  `data` always holds the
bytes `[0, writeEnd)`; the logical end of data is `data.length`. -/
structure BytesFile where
  data : List Nat
  pos : Nat
  deriving Repr, DecidableEq

/-- A fresh buffer, as created by `io.BytesIO()`. -/
def BytesFile.empty : BytesFile := ⟨[], 0⟩

/-- The steady-state append of `_stream_downloader_function` (lines 551-555):
`lastReadPos = tell(); seek(0, END); write(chunk); seek(lastReadPos)` —
the chunk is written at the logical end of data and the read head is
restored to its prior position. -/
def BytesFile.append (b : BytesFile) (chunk : List Nat) : BytesFile :=
  let lastReadPos := b.pos
  { data := b.data ++ chunk, pos := lastReadPos }

/-- `read(n)` on the buffer: return up to `n` bytes starting at the read
head and advance the head by the number of bytes actually returned. -/
def BytesFile.read (b : BytesFile) (n : Nat) : List Nat × BytesFile :=
  let out := (b.data.drop b.pos).take n
  (out, { b with pos := b.pos + out.length })

/-- One interaction with the shared buffer: the downloader appends a chunk,
or the decoder reads up to `n` bytes. -/
inductive BufOp where
  | append (chunk : List Nat)
  | read (n : Nat)
  deriving Repr, DecidableEq

/-- Run a sequence of buffer operations, collecting in order every byte the
reads return. -/
def runOps : List BufOp → BytesFile → List Nat × BytesFile
  | [], b => ([], b)
  | .append c :: ops, b => runOps ops (b.append c)
  | .read n :: ops, b =>
      let rb := b.read n
      let rest := runOps ops rb.2
      (rb.1 ++ rest.1, rest.2)

/-- The concatenation, in order, of every chunk appended by a sequence of
buffer operations. -/
def appendedChunks : List BufOp → List Nat
  | [] => []
  | .append c :: ops => c ++ appendedChunks ops
  | .read _ :: ops => appendedChunks ops

theorem take_take_length (X : List Nat) (n : Nat) :
    X.take (X.take n).length = X.take n := by
  rcases le_total n X.length with h | h
  · rw [List.length_take, Nat.min_eq_left h]
  · rw [List.take_of_length_le h, List.take_length]

theorem runOps_spec (ops : List BufOp) (b : BytesFile)
    (hb : b.pos ≤ b.data.length) :
    (runOps ops b).2.data = b.data ++ appendedChunks ops
    ∧ (runOps ops b).1 =
        ((runOps ops b).2.data.drop b.pos).take ((runOps ops b).2.pos - b.pos)
    ∧ b.pos ≤ (runOps ops b).2.pos
    ∧ (runOps ops b).2.pos ≤ (runOps ops b).2.data.length := by
  induction ops generalizing b with
  | nil =>
      refine ⟨by simp [runOps, appendedChunks], ?_, le_refl _, hb⟩
      simp [runOps]
  | cons op ops ih =>
      cases op with
      | append c =>
          have hb' : (b.append c).pos ≤ (b.append c).data.length := by
            simp only [BytesFile.append]
            exact le_trans hb (by simp)
          have h := ih (b.append c) hb'
          have hpos : (b.append c).pos = b.pos := rfl
          have hrun : runOps (.append c :: ops) b = runOps ops (b.append c) := rfl
          refine ⟨?_, ?_, ?_, by rw [hrun]; exact h.2.2.2⟩
          · rw [hrun, h.1]
            simp [BytesFile.append, appendedChunks]
          · rw [hrun]
            have := h.2.1
            rwa [hpos] at this
          · have := h.2.2.1
            rw [hpos] at this
            rwa [hrun]
      | read n =>
          set r := (b.data.drop b.pos).take n with hr
          have hk : r.length ≤ b.data.length - b.pos := by
            rw [hr, List.length_take, List.length_drop]
            omega
          set b1 : BytesFile := { b with pos := b.pos + r.length } with hb1
          have hb1pos : b1.pos = b.pos + r.length := rfl
          have hb1data : b1.data = b.data := rfl
          have hb1le : b1.pos ≤ b1.data.length := by
            rw [hb1pos, hb1data]
            omega
          have h := ih b1 hb1le
          have hrun1 : (runOps (.read n :: ops) b).1 = r ++ (runOps ops b1).1 := rfl
          have hrun2 : (runOps (.read n :: ops) b).2 = (runOps ops b1).2 := rfl
          have hdata : (runOps ops b1).2.data = b.data ++ appendedChunks ops := by
            have := h.1
            rwa [hb1data] at this
          have hple : b.pos + r.length ≤ (runOps ops b1).2.pos := by
            have := h.2.2.1
            rwa [hb1pos] at this
          refine ⟨?_, ?_, ?_, ?_⟩
          · rw [hrun2, hdata]
            simp [appendedChunks]
          · rw [hrun1, hrun2]
            have hsplit : (runOps ops b1).2.pos - b.pos =
                r.length + ((runOps ops b1).2.pos - (b.pos + r.length)) := by
              omega
            rw [hsplit, List.take_add]
            have hfirst : ((runOps ops b1).2.data.drop b.pos).take r.length = r := by
              rw [hdata, List.drop_append_eq_append_drop,
                Nat.sub_eq_zero_of_le hb, List.drop_zero,
                List.take_append_of_le_length
                  (by rw [List.length_drop]; omega)]
              rw [hr]
              exact take_take_length _ _
            have hsecond : (((runOps ops b1).2.data.drop b.pos).drop r.length).take
                ((runOps ops b1).2.pos - (b.pos + r.length)) = (runOps ops b1).1 := by
              rw [List.drop_drop]
              have := h.2.1
              rw [hb1pos] at this
              exact this.symm
            rw [hfirst, hsecond]
          · rw [hrun2]
            omega
          · rw [hrun2]
            exact h.2.2.2

/-- **C1.**  For every sequence of appends and reads on the shared buffer —
each append writing at the logical end of data and restoring the prior read
position, each read advancing the read head by the bytes returned — the
bytes delivered to the reader are exactly the contiguous prefix of the
concatenation of the appended chunks up to the final read position: no
gaps, no duplication; in particular, when the reader has consumed up to the
logical end, it has read exactly the concatenation of the appended chunks. -/
theorem bytesFile_reads_are_contiguous_concatenation (ops : List BufOp) :
    (runOps ops BytesFile.empty).2.data = appendedChunks ops
    ∧ (runOps ops BytesFile.empty).1 =
        (appendedChunks ops).take (runOps ops BytesFile.empty).2.pos
    ∧ ((runOps ops BytesFile.empty).2.pos = (appendedChunks ops).length →
        (runOps ops BytesFile.empty).1 = appendedChunks ops) := by
  have h := runOps_spec ops BytesFile.empty (by simp [BytesFile.empty])
  have hpos0 : BytesFile.empty.pos = 0 := rfl
  have hdata : (runOps ops BytesFile.empty).2.data = appendedChunks ops := by
    have := h.1
    have hd0 : BytesFile.empty.data = [] := rfl
    rw [hd0, List.nil_append] at this
    exact this
  have hout : (runOps ops BytesFile.empty).1 =
      (appendedChunks ops).take (runOps ops BytesFile.empty).2.pos := by
    have := h.2.1
    rw [hdata, hpos0, List.drop_zero, Nat.sub_zero] at this
    exact this
  refine ⟨hdata, hout, ?_⟩
  intro hfull
  rw [hout, hfull, List.take_length]

/-- Witness for C1: a concrete run — append `[1,2,3]`, read 2, append
`[4]`, read up to 5 more — delivers exactly `[1,2,3,4]`. -/
theorem bytesFile_reads_witness :
    (runOps [.append [1,2,3], .read 2, .append [4], .read 5]
      BytesFile.empty).1 = [1,2,3,4] := by
  have h := bytesFile_reads_are_contiguous_concatenation
    [.append [1,2,3], .read 2, .append [4], .read 5]
  exact h.2.2 (by decide)

/-! ## Feed loop (`begin_streaming`, lines 495-518) -/

/-- Snapshot of one iteration of the feed loop in `begin_streaming`: the
bytes returned by `_get_data_from_download_thread`, together with the
buffer positions `curPos = tell()`, `endPos = seek(0, os.SEEK_END)` and the
`downloadDoneEvent` flag, all observed under the lock in the short-block
branch. -/
structure ReadResult where
  data : List Nat
  curPos : Nat
  endPos : Nat
  downloadDone : Bool
  deriving Repr, DecidableEq

/-- What one iteration of the feed loop body does with the data it read. -/
inductive FeedAction where
  /-- full-size block: `self._q.put(data)`, loop continues -/
  | enqueue
  /-- end-of-stream with leftover data: `self._q.put(data)`, then `break` -/
  | enqueueAndStop
  /-- end-of-stream with empty data: `break` without enqueueing -/
  | stopQuiet
  /-- `logging.critical("We're not at the end, yet ...")`, loop continues -/
  | criticalContinue
  deriving Repr, DecidableEq

/-- One iteration of the `while True:` feed loop (lines 496-517), with
`blockBytes = _playbackBlockSize * self._frameSize`. -/
def feedStep (blockBytes : Nat) (r : ReadResult) : FeedAction :=
  if r.data.length = blockBytes then .enqueue
  else if r.endPos = r.curPos ∧ r.downloadDone then
    (if r.data = [] then .stopQuiet else .enqueueAndStop)
  else .criticalContinue

/-- The genuine end-of-stream condition of line 508: a short block while
the read head sits at the logical end of data and the download is done. -/
def stopCond (blockBytes : Nat) (r : ReadResult) : Prop :=
  r.data.length ≠ blockBytes ∧ r.endPos = r.curPos ∧ r.downloadDone

instance (blockBytes : Nat) : DecidablePred (stopCond blockBytes) := fun r => by
  unfold stopCond
  infer_instance

/-- Run the feed loop over a script of successive read results.  The first
component is `some queue` when the loop hit its `break` (normal
termination), holding the blocks enqueued in order, and `none` when the
script ran out with the loop still spinning; the second component counts
the critical-log iterations. -/
def feedRun (blockBytes : Nat) : List ReadResult → Option (List (List Nat)) × Nat
  | [] => (none, 0)
  | r :: rs =>
    match feedStep blockBytes r with
    | .enqueue =>
        let rest := feedRun blockBytes rs
        (rest.1.map (fun q => r.data :: q), rest.2)
    | .enqueueAndStop => (some [r.data], 0)
    | .stopQuiet => (some [], 0)
    | .criticalContinue =>
        let rest := feedRun blockBytes rs
        (rest.1, rest.2 + 1)

theorem feedRun_cons (blockBytes : Nat) (r : ReadResult) (rs : List ReadResult) :
    feedRun blockBytes (r :: rs) =
      match feedStep blockBytes r with
      | .enqueue =>
          ((feedRun blockBytes rs).1.map (fun q => r.data :: q),
            (feedRun blockBytes rs).2)
      | .enqueueAndStop => (some [r.data], 0)
      | .stopQuiet => (some [], 0)
      | .criticalContinue =>
          ((feedRun blockBytes rs).1, (feedRun blockBytes rs).2 + 1) := rfl

theorem feedStep_of_full {blockBytes : Nat} {r : ReadResult}
    (h : r.data.length = blockBytes) : feedStep blockBytes r = .enqueue := by
  simp [feedStep, h]

theorem feedStep_of_stop {blockBytes : Nat} {r : ReadResult}
    (h : stopCond blockBytes r) :
    feedStep blockBytes r = (if r.data = [] then .stopQuiet else .enqueueAndStop) := by
  obtain ⟨h1, h2, h3⟩ := h
  simp [feedStep, h1, h2, h3]

theorem feedStep_of_violation {blockBytes : Nat} {r : ReadResult}
    (h1 : r.data.length ≠ blockBytes)
    (h2 : ¬(r.endPos = r.curPos ∧ r.downloadDone)) :
    feedStep blockBytes r = .criticalContinue := by
  simp only [feedStep, if_neg h1, if_neg h2]

/-- **C2.**  The feed loop terminates normally exactly when some read in
the script returns a short (not-full-size) block while the read head is at
the logical end of data and download-done is set; and when the very read at
hand satisfies that condition, the loop stops there, enqueueing the short
block precisely when it is non-empty. -/
theorem feedLoop_stops_iff_short_at_end_and_done (blockBytes : Nat)
    (rs : List ReadResult) :
    ((feedRun blockBytes rs).1.isSome ↔ ∃ r ∈ rs, stopCond blockBytes r)
    ∧ (∀ (r : ReadResult) (rs' : List ReadResult), stopCond blockBytes r →
        (feedRun blockBytes (r :: rs')).1 =
          some (if r.data = [] then [] else [r.data])) := by
  constructor
  · induction rs with
    | nil => simp [feedRun]
    | cons r rs ih =>
        by_cases hs : stopCond blockBytes r
        · rw [feedRun_cons, feedStep_of_stop hs]
          by_cases hd : r.data = [] <;> simp [hd, hs]
        · have hstep : feedStep blockBytes r = .enqueue
              ∨ feedStep blockBytes r = .criticalContinue := by
            unfold stopCond at hs
            by_cases h1 : r.data.length = blockBytes
            · exact Or.inl (feedStep_of_full h1)
            · refine Or.inr (feedStep_of_violation h1 ?_)
              intro hc
              exact hs ⟨h1, hc⟩
          rw [feedRun_cons]
          rcases hstep with hstep | hstep <;>
            · rw [hstep]
              simp [hs, ih]
  · intro r rs' hs
    rw [feedRun_cons, feedStep_of_stop hs]
    by_cases hd : r.data = [] <;> simp [hd]

/-- Witness for C2: for block size 4, the single read `⟨[9], 3, 3, true⟩`
(one leftover byte, head at end, download done) terminates the loop and
enqueues the short block. -/
theorem feedLoop_stops_witness :
    (feedRun 4 [⟨[9], 3, 3, true⟩]).1 = some [[9]] := by
  have h := (feedLoop_stops_iff_short_at_end_and_done 4 []).2
    ⟨[9], 3, 3, true⟩ [] (by decide)
  simpa using h

/-- **C3 counterexample.**  A pacing violation (short block, head not at
the logical end, download not done) does not abort the feed loop: in the
concrete script below the violating read is followed by a full-size block
that is still enqueued and by a normal end-of-stream that still terminates
the loop — the loop logged one critical message and kept running, instead
of aborting the session. -/
theorem feedLoop_pacing_violation_not_abort :
    feedRun 4 [⟨[1], 0, 5, false⟩, ⟨[1,2,3,4], 4, 8, false⟩, ⟨[], 8, 8, true⟩]
      = (some [[1,2,3,4]], 1) := by
  decide

/-- **C3 (amended).**  On a pacing violation the feed loop logs the event
as critical and continues with the next iteration (retrying the loop); it
does not abort the session.  The iteration contributes one critical-log
count and leaves the termination status and queue of the remaining script
unchanged. -/
theorem feedLoop_pacing_violation_logs_critical_and_continues
    (blockBytes : Nat) (r : ReadResult) (rs : List ReadResult)
    (h1 : r.data.length ≠ blockBytes)
    (h2 : ¬(r.endPos = r.curPos ∧ r.downloadDone)) :
    feedStep blockBytes r = .criticalContinue
    ∧ (feedRun blockBytes (r :: rs)).1 = (feedRun blockBytes rs).1
    ∧ (feedRun blockBytes (r :: rs)).2 = (feedRun blockBytes rs).2 + 1 := by
  have hstep := feedStep_of_violation h1 h2
  refine ⟨hstep, ?_, ?_⟩ <;>
    · rw [feedRun_cons, hstep]

/-- Witness for the amended C3 at a concrete violating read. -/
theorem feedLoop_pacing_violation_witness :
    feedStep 4 ⟨[1], 0, 5, false⟩ = .criticalContinue
    ∧ (feedRun 4 [⟨[1], 0, 5, false⟩]).1 = (feedRun 4 []).1
    ∧ (feedRun 4 [⟨[1], 0, 5, false⟩]).2 = (feedRun 4 []).2 + 1 :=
  feedLoop_pacing_violation_logs_critical_and_continues 4 ⟨[1], 0, 5, false⟩ []
    (by decide) (by decide)

/-! ## Downloader per-chunk write (`_stream_downloader_function`, lines 542-559) -/

/-- The downloader-visible state: the shared buffer plus the events touched
by `_stream_downloader_function`. -/
structure DownloadState where
  buf : BytesFile
  headerReady : Bool
  soundFileReady : Bool
  blockDataAvailable : Bool
  downloadDone : Bool
  deriving Repr, DecidableEq

/-- The locked per-chunk write of the downloader (lines 543-559): if
`headerReadyEvent` is not set, write the chunk at the end, move the head to
0 and set the event; otherwise append the chunk preserving the read head
(`lastReadPos`), and set `blockDataAvailable` exactly when
`endPos - lastReadPos > _playbackBlockSize` (note: the byte count is
compared against the block size in frames, not multiplied by the frame
size). -/
def downloaderWriteChunk (playbackBlockSize : Nat) (st : DownloadState)
    (chunk : List Nat) : DownloadState :=
  if !st.headerReady then
    { st with
        buf := { data := st.buf.data ++ chunk, pos := 0 },
        headerReady := true }
  else
    let lastReadPos := st.buf.pos
    let buf' := st.buf.append chunk
    let endPos := buf'.data.length
    { st with
        buf := buf',
        blockDataAvailable :=
          if endPos - lastReadPos > playbackBlockSize then true
          else st.blockDataAvailable }

theorem downloaderWriteChunk_blockAvail_eq (playbackBlockSize : Nat)
    (st : DownloadState) (chunk : List Nat) (hready : st.headerReady = true) :
    (downloaderWriteChunk playbackBlockSize st chunk).blockDataAvailable =
      (st.blockDataAvailable ||
        decide ((st.buf.data.length + chunk.length) - st.buf.pos > playbackBlockSize)) := by
  by_cases h : (st.buf.data.length + chunk.length) - st.buf.pos > playbackBlockSize <;>
    simp [downloaderWriteChunk, hready, BytesFile.append, h]

/-- A concrete post-header state: 1000 bytes buffered, read head at 0,
no block flagged available yet. -/
def c5State : DownloadState :=
  { buf := { data := List.replicate 1000 0, pos := 0 },
    headerReady := true, soundFileReady := true,
    blockDataAvailable := false, downloadDone := false }

/-- **C5 counterexample.**  With the default block size 2048 frames and a
frame size of 4 bytes (one float32 channel), appending a 2000-byte chunk to
`c5State` leaves 3000 newly available bytes: the code sets
`blockDataAvailable` (3000 > 2048), yet 3000 does not exceed one playback
block's byte size 2048 × 4 = 8192 — so the signal is not set "exactly when
the newly available bytes exceed one playback block's byte size". -/
theorem downloader_blockAvailable_byte_threshold_counterexample :
    (downloaderWriteChunk 2048 c5State (List.replicate 2000 1)).blockDataAvailable = true
    ∧ ¬((c5State.buf.data.length + (List.replicate 2000 (1:Nat)).length)
          - c5State.buf.pos > 2048 * 4) := by
  constructor
  · rw [downloaderWriteChunk_blockAvail_eq 2048 c5State (List.replicate 2000 1) rfl]
    simp only [c5State, List.length_replicate]
    norm_num
  · simp only [c5State, List.length_replicate]
    norm_num

/-- **C5 (amended).**  For every chunk appended after header-ready is set,
the downloader leaves `blockDataAvailable` set exactly when it was already
set or the bytes newly available since the last read position (logical end
after the append minus the read head) exceed the playback block size
expressed as a frame count (`_playbackBlockSize` itself, not multiplied by
the frame size in bytes). -/
theorem downloader_blockAvailable_set_iff (playbackBlockSize : Nat)
    (st : DownloadState) (chunk : List Nat) (hready : st.headerReady = true) :
    (downloaderWriteChunk playbackBlockSize st chunk).blockDataAvailable =
      (st.blockDataAvailable ||
        decide ((st.buf.data.length + chunk.length) - st.buf.pos > playbackBlockSize)) :=
  downloaderWriteChunk_blockAvail_eq playbackBlockSize st chunk hready

/-- Witness for the amended C5: appending 3000 fresh bytes over an empty
read backlog flags a block as available under the default 2048. -/
theorem downloader_blockAvailable_witness :
    (downloaderWriteChunk 2048 c5State (List.replicate 2000 1)).blockDataAvailable =
      (c5State.blockDataAvailable ||
        decide ((c5State.buf.data.length + (List.replicate 2000 (1:Nat)).length)
          - c5State.buf.pos > 2048)) :=
  downloader_blockAvailable_set_iff 2048 c5State (List.replicate 2000 1) rfl

/-! ## Real-time playback callback (`_stream_playback_callback`, lines 566-613) -/

/-- The `while True: get_nowait()` pop loop at the top of the callback
(lines 569-583): empty items are discarded while the download is not done
(`continue`); any other case breaks with the item; `none` models the
`queue.Empty` exception (the queue ran dry). -/
def popLoop (downloadDone : Bool) : List (List Nat) → Option (List Nat × List (List Nat))
  | [] => none
  | b :: rest =>
      if b = [] ∧ downloadDone = false then popLoop downloadDone rest
      else some (b, rest)

/-- What one callback invocation does towards the audio device. -/
inductive CbOutcome where
  /-- fill `outdata` with these bytes and return normally -/
  | play (out : List Nat)
  /-- `raise sd.CallbackStop` -/
  | stop
  /-- `raise sd.CallbackAbort` -/
  | abort
  deriving Repr, DecidableEq

/-- Callback-visible mutable state: the handoff queue `self._q` and the
`playbackStartFired` latch. -/
structure CbState where
  queue : List (List Nat)
  fired : Bool
  deriving Repr, DecidableEq

/-- Result of one callback invocation: the device-visible outcome, whether
`onPlaybackStart` fired during this invocation, the block popped from the
queue (if any), and the successor state. -/
structure CbResult where
  outcome : CbOutcome
  firedStart : Bool
  popped : Option (List Nat)
  state : CbState
  deriving Repr, DecidableEq

/-- One invocation of `_stream_playback_callback`, with `B = len(outdata)`
bytes of device buffer: pop (skipping empty items while the download is not
done); on queue-dry stop if download done else abort; once an item is
popped fire `onPlaybackStart` if the latch is clear (line 586 — this
happens before the empty-block check); then fill `outdata`: short block →
copy then zero-pad; empty block → stop when the read head is at the
logical end (`bufAtEnd`, line 606) and download is done, else silence;
full block → copy verbatim. -/
def callbackInvoke (B : Nat) (downloadDone bufAtEnd : Bool) (st : CbState) : CbResult :=
  match popLoop downloadDone st.queue with
  | none =>
      if downloadDone then ⟨.stop, false, none, { st with queue := [] }⟩
      else ⟨.abort, false, none, { st with queue := [] }⟩
  | some (readData, rest) =>
      let firedNow := !st.fired
      let st' : CbState := { queue := rest, fired := true }
      if 0 < readData.length ∧ readData.length < B then
        ⟨.play (readData ++ List.replicate (B - readData.length) 0), firedNow,
          some readData, st'⟩
      else if readData.length = 0 then
        if bufAtEnd ∧ downloadDone then ⟨.stop, firedNow, some readData, st'⟩
        else ⟨.play (List.replicate B 0), firedNow, some readData, st'⟩
      else ⟨.play readData, firedNow, some readData, st'⟩

/-- Drive the callback over successive device invocations, each observing
its own `(downloadDone, bufAtEnd)` pair, until it raises stop/abort or the
invocation budget runs out.  Returns how many times `onPlaybackStart` fired
and the block popped by the invocation that fired it. -/
def runSession (B : Nat) : List (Bool × Bool) → CbState → Nat × Option (List Nat)
  | [], _ => (0, none)
  | env :: envs, st =>
      let r := callbackInvoke B env.1 env.2 st
      match r.outcome with
      | .play _ =>
          let rest := runSession B envs r.state
          ((if r.firedStart then 1 else 0) + rest.1,
            if r.firedStart then r.popped else rest.2)
      | .stop =>
          ((if r.firedStart then 1 else 0), if r.firedStart then r.popped else none)
      | .abort =>
          ((if r.firedStart then 1 else 0), if r.firedStart then r.popped else none)

theorem runSession_cons (B : Nat) (env : Bool × Bool) (envs : List (Bool × Bool))
    (st : CbState) :
    runSession B (env :: envs) st =
      (match (callbackInvoke B env.1 env.2 st).outcome with
        | .play _ =>
            ((if (callbackInvoke B env.1 env.2 st).firedStart then 1 else 0)
                + (runSession B envs (callbackInvoke B env.1 env.2 st).state).1,
              if (callbackInvoke B env.1 env.2 st).firedStart then
                (callbackInvoke B env.1 env.2 st).popped
              else (runSession B envs (callbackInvoke B env.1 env.2 st).state).2)
        | .stop =>
            ((if (callbackInvoke B env.1 env.2 st).firedStart then 1 else 0),
              if (callbackInvoke B env.1 env.2 st).firedStart then
                (callbackInvoke B env.1 env.2 st).popped
              else none)
        | .abort =>
            ((if (callbackInvoke B env.1 env.2 st).firedStart then 1 else 0),
              if (callbackInvoke B env.1 env.2 st).firedStart then
                (callbackInvoke B env.1 env.2 st).popped
              else none)) := rfl

theorem callbackInvoke_pop_some (B : Nat) (downloadDone bufAtEnd : Bool)
    (st : CbState) (readData : List Nat) (rest : List (List Nat))
    (hpop : popLoop downloadDone st.queue = some (readData, rest)) :
    callbackInvoke B downloadDone bufAtEnd st =
      (if 0 < readData.length ∧ readData.length < B then
        ⟨.play (readData ++ List.replicate (B - readData.length) 0), !st.fired,
          some readData, ⟨rest, true⟩⟩
      else if readData.length = 0 then
        if bufAtEnd ∧ downloadDone then ⟨.stop, !st.fired, some readData, ⟨rest, true⟩⟩
        else ⟨.play (List.replicate B 0), !st.fired, some readData, ⟨rest, true⟩⟩
      else ⟨.play readData, !st.fired, some readData, ⟨rest, true⟩⟩) := by
  unfold callbackInvoke
  rw [hpop]

theorem callbackInvoke_fired (B : Nat) (downloadDone bufAtEnd : Bool) (st : CbState)
    (hf : st.fired = true) :
    (callbackInvoke B downloadDone bufAtEnd st).firedStart = false
    ∧ (callbackInvoke B downloadDone bufAtEnd st).state.fired = true := by
  unfold callbackInvoke
  cases hpop : popLoop downloadDone st.queue with
  | none => split_ifs <;> simp [hf]
  | some p =>
      obtain ⟨readData, rest⟩ := p
      simp only
      split_ifs <;> simp [hf]

/-- Once the `playbackStartFired` latch is set, no later invocation fires
the playback-started callback again. -/
theorem runSession_after_fired (B : Nat) (envs : List (Bool × Bool)) (st : CbState)
    (hf : st.fired = true) :
    (runSession B envs st).1 = 0 ∧ (runSession B envs st).2 = none := by
  induction envs generalizing st with
  | nil => simp [runSession]
  | cons env envs ih =>
      have h1 := callbackInvoke_fired B env.1 env.2 st hf
      rw [runSession_cons]
      cases h2 : (callbackInvoke B env.1 env.2 st).outcome <;>
        simp [h1.1, ih _ h1.2]

theorem feedStep_enqueue_length {blockBytes : Nat} {r : ReadResult}
    (h : feedStep blockBytes r = .enqueue) : r.data.length = blockBytes := by
  by_contra hne
  unfold feedStep at h
  rw [if_neg hne] at h
  split_ifs at h

theorem feedStep_enqueueAndStop_nonempty {blockBytes : Nat} {r : ReadResult}
    (h : feedStep blockBytes r = .enqueueAndStop) : r.data ≠ [] := by
  intro hd
  unfold feedStep at h
  split_ifs at h

/-- Every block the feed loop enqueues is non-empty: full-size blocks have
`blockBytes > 0` bytes, and a short final block is enqueued only when it is
not `b""` (line 510). -/
theorem feedRun_blocks_nonempty (blockBytes : Nat) (hbb : 0 < blockBytes) :
    ∀ (rs : List ReadResult) (q : List (List Nat)),
      (feedRun blockBytes rs).1 = some q → ∀ b ∈ q, b ≠ [] := by
  intro rs
  induction rs with
  | nil =>
      intro q h
      simp [feedRun] at h
  | cons r rs ih =>
      intro q h
      rw [feedRun_cons] at h
      cases hstep : feedStep blockBytes r <;> rw [hstep] at h
      · -- enqueue
        simp only [Option.map_eq_some'] at h
        obtain ⟨q0, hq0, hq⟩ := h
        intro b hb
        rw [← hq] at hb
        rcases List.mem_cons.mp hb with hb | hb
        · have hlen := feedStep_enqueue_length hstep
          intro hnil
          rw [hb] at hnil
          rw [hnil] at hlen
          simp at hlen
          omega
        · exact ih q0 hq0 b hb
      · -- enqueueAndStop
        simp only [Option.some.injEq] at h
        intro b hb
        rw [← h] at hb
        simp at hb
        rw [hb]
        exact feedStep_enqueueAndStop_nonempty hstep
      · -- stopQuiet
        simp only [Option.some.injEq] at h
        intro b hb
        rw [← h] at hb
        simp at hb
      · -- criticalContinue
        exact ih q h

/-- **C4.**  Within one streaming session — the handoff queue holding
exactly the blocks the feed loop enqueued — the `onPlaybackStart` callback
fires exactly once over the whole run of device invocations, and it fires
on the first block popped by the real-time callback, which is non-empty
(never on an empty block). -/
theorem playbackStart_fires_once_on_first_nonempty
    (blockBytes B : Nat) (hbb : 0 < blockBytes)
    (rs : List ReadResult) (b : List Nat) (q' : List (List Nat))
    (hq : (feedRun blockBytes rs).1 = some (b :: q'))
    (env : Bool × Bool) (envs : List (Bool × Bool)) :
    (runSession B (env :: envs) ⟨b :: q', false⟩).1 = 1
    ∧ (runSession B (env :: envs) ⟨b :: q', false⟩).2 = some b
    ∧ b ≠ [] := by
  have hb : b ≠ [] :=
    feedRun_blocks_nonempty blockBytes hbb rs (b :: q') hq b (by simp)
  have hpop : popLoop env.1 (b :: q') = some (b, q') := by
    simp [popLoop, hb]
  have hblen : b.length ≠ 0 := by
    intro h0
    exact hb (List.length_eq_zero.mp h0)
  have hr := callbackInvoke_pop_some B env.1 env.2 ⟨b :: q', false⟩ b q' hpop
  have hall : (callbackInvoke B env.1 env.2 ⟨b :: q', false⟩).firedStart = true
      ∧ (callbackInvoke B env.1 env.2 ⟨b :: q', false⟩).popped = some b
      ∧ (callbackInvoke B env.1 env.2 ⟨b :: q', false⟩).state = ⟨q', true⟩
      ∧ ∃ o, (callbackInvoke B env.1 env.2 ⟨b :: q', false⟩).outcome = .play o := by
    rw [hr]
    by_cases h1 : 0 < b.length ∧ b.length < B
    · rw [if_pos h1]
      exact ⟨rfl, rfl, rfl, _, rfl⟩
    · rw [if_neg h1, if_neg hblen]
      exact ⟨rfl, rfl, rfl, _, rfl⟩
  obtain ⟨hfs, hpo, hst, o, ho⟩ := hall
  have hrest := runSession_after_fired B envs ⟨q', true⟩ rfl
  rw [runSession_cons, ho] at *
  refine ⟨?_, ?_, hb⟩
  · simp only [hfs, hst, if_true]
    rw [hrest.1]
  · simp only [hfs, hpo, if_true]

/-- Witness for C4: a session whose feed loop produced the single short
final block `[5]`; the first device invocation fires the callback on it. -/
theorem playbackStart_fires_once_witness :
    (runSession 8 [(true, true)] ⟨[5] :: [], false⟩).1 = 1
    ∧ (runSession 8 [(true, true)] ⟨[5] :: [], false⟩).2 = some [5]
    ∧ [5] ≠ ([] : List Nat) :=
  playbackStart_fires_once_on_first_nonempty 4 8 (by decide)
    [⟨[5], 3, 3, true⟩] [5] [] (by decide) (true, true) []

/-- **C9.**  In the real-time callback, a popped block of length `L` with
`0 < L < B` (device buffer size `B`) is delivered as `outdata` whose first
`L` bytes are the block and whose trailing `B - L` bytes are all zero
(lines 599-600). -/
theorem callback_short_block_zero_padding
    (B : Nat) (readData : List Nat) (q : List (List Nat)) (fired : Bool)
    (downloadDone bufAtEnd : Bool)
    (h1 : 0 < readData.length) (h2 : readData.length < B) :
    (callbackInvoke B downloadDone bufAtEnd ⟨readData :: q, fired⟩).outcome =
      .play (readData ++ List.replicate (B - readData.length) 0)
    ∧ (readData ++ List.replicate (B - readData.length) 0).take readData.length
        = readData
    ∧ (readData ++ List.replicate (B - readData.length) 0).drop readData.length
        = List.replicate (B - readData.length) 0
    ∧ (readData ++ List.replicate (B - readData.length) 0).length = B := by
  have hne : readData ≠ [] := by
    intro h0
    rw [h0] at h1
    simp at h1
  have hpop : popLoop downloadDone (readData :: q) = some (readData, q) := by
    simp [popLoop, hne]
  refine ⟨?_, ?_, ?_, ?_⟩
  · rw [callbackInvoke_pop_some B downloadDone bufAtEnd ⟨readData :: q, fired⟩
        readData q hpop, if_pos ⟨h1, h2⟩]
  · exact List.take_left readData _
  · exact List.drop_left readData _
  · rw [List.length_append, List.length_replicate]
    omega

/-- Witness for C9: a 2-byte block into a 5-byte device buffer is padded
with three zero bytes. -/
theorem callback_short_block_zero_padding_witness :
    (callbackInvoke 5 true true ⟨[[7, 8]], false⟩).outcome =
      .play ([7, 8] ++ List.replicate (5 - [7, 8].length) 0)
    ∧ ([7, 8] ++ List.replicate (5 - [7, 8].length) 0).take [7, 8].length = [7, 8]
    ∧ ([7, 8] ++ List.replicate (5 - [7, 8].length) 0).drop [7, 8].length
        = List.replicate (5 - [7, 8].length) 0
    ∧ ([7, 8] ++ List.replicate (5 - [7, 8].length) 0).length = 5 :=
  callback_short_block_zero_padding 5 [7, 8] [] false true true
    (by decide) (by decide)

/-! ## `_soundFile_read_and_fix` (lines 614-634) and
`_get_data_from_download_thread` (lines 636-661) -/

/-- The decoder handle `self._bytesSoundFile : sf.SoundFile`: its frame
position (`tell()`, in frames) and the total frame count its header
metadata believes in (`frames`), which can be stale for files whose length
metadata was written incrementally. -/
structure SoundFileHandle where
  pos : Nat
  frames : Nat
  deriving Repr, DecidableEq

/-- `buffer_read(n)` on the parser: delivers `min n (frames - pos)` frames
— the (possibly stale) `frames` metadata caps the read — advancing the
frame position by the frames actually delivered. -/
def bufferRead (sf : SoundFileHandle) (n : Nat) : Nat × SoundFileHandle :=
  let k := min n (sf.frames - sf.pos)
  (k, { sf with pos := sf.pos + k })

/-- Result of `_soundFile_read_and_fix`: the bytes returned (as a length,
`frames read × frameSize`), the decoder handle afterwards, and whether the
stale handle was replaced by a freshly constructed parser. -/
structure ReadFixResult where
  readLen : Nat
  handle : SoundFileHandle
  replaced : Bool
  deriving Repr, DecidableEq

/-- `_soundFile_read_and_fix(dataToRead)` (lines 614-634): `buffer_read`;
if fewer bytes than `dataToRead * frameSize` came back and the read head is
not at the buffer's logical end (`curPos != endPos`), construct a fresh
parser over the current bytes (it reports `freshFrames` total frames), seek
it to the frame offset at which the failed read started
(`self._bytesSoundFile.tell() - len(readData) // frameSize`), and only if
it reports strictly more total frames than the stale handle
(`newSF.frames > self._bytesSoundFile.frames`), adopt it and re-read once. -/
def soundFileReadAndFix (frameSize : Nat) (sf : SoundFileHandle)
    (dataToRead curPos endPos freshFrames : Nat) : ReadFixResult :=
  let k := (bufferRead sf dataToRead).1
  let sf1 := (bufferRead sf dataToRead).2
  if k * frameSize < dataToRead * frameSize then
    if curPos ≠ endPos then
      let newSF : SoundFileHandle := { pos := sf1.pos - k, frames := freshFrames }
      if newSF.frames > sf.frames then
        ⟨(bufferRead newSF dataToRead).1 * frameSize,
          (bufferRead newSF dataToRead).2, true⟩
      else ⟨k * frameSize, sf1, false⟩
    else ⟨k * frameSize, sf1, false⟩
  else ⟨k * frameSize, sf1, false⟩

/-- The exception boundary of `_get_data_from_download_thread`
(lines 639-645): the `buffer_read` call may raise `AssertionError` on an
irrecoverable frame-count mismatch (ID3v2-tagged files); the wrapper
catches it and degrades to `b""` instead of letting it reach the feed
loop. -/
def getDataReadOutcome (readOutcome : Except Unit (List Nat)) : List Nat :=
  match readOutcome with
  | .error _ => []
  | .ok d => d

/-- **C8.**  On a short `buffer_read` (fewer frames than requested) with
the read head not at the buffer's logical end: the fresh parser is seeked
exactly to the frame offset where the failed read started (`sf.pos`), the
stale handle is replaced precisely when the fresh parser reports strictly
more total frames — in which case the read is retried exactly once on the
fresh handle — and otherwise the stale short result is kept; and an
`AssertionError` from the underlying read is caught and turned into an
empty byte string rather than raised to the feed loop. -/
theorem soundFileReadAndFix_replaces_only_on_more_frames
    (frameSize : Nat) (hfs : 0 < frameSize) (sf : SoundFileHandle)
    (dataToRead curPos endPos freshFrames : Nat)
    (hshort : (bufferRead sf dataToRead).1 < dataToRead)
    (hmoved : curPos ≠ endPos) :
    ((soundFileReadAndFix frameSize sf dataToRead curPos endPos freshFrames).replaced
        = decide (freshFrames > sf.frames))
    ∧ (freshFrames > sf.frames →
        soundFileReadAndFix frameSize sf dataToRead curPos endPos freshFrames =
          ⟨(bufferRead ⟨sf.pos, freshFrames⟩ dataToRead).1 * frameSize,
            (bufferRead ⟨sf.pos, freshFrames⟩ dataToRead).2, true⟩)
    ∧ (¬freshFrames > sf.frames →
        soundFileReadAndFix frameSize sf dataToRead curPos endPos freshFrames =
          ⟨(bufferRead sf dataToRead).1 * frameSize,
            (bufferRead sf dataToRead).2, false⟩)
    ∧ (∀ e : Unit, getDataReadOutcome (.error e) = []) := by
  have hbytes : (bufferRead sf dataToRead).1 * frameSize
      < dataToRead * frameSize := Nat.mul_lt_mul_of_lt_of_le hshort (le_refl _) hfs
  have hseek : ((bufferRead sf dataToRead).2.pos - (bufferRead sf dataToRead).1)
      = sf.pos := by
    simp only [bufferRead]
    omega
  unfold soundFileReadAndFix
  rw [if_pos hbytes, if_pos hmoved, hseek]
  by_cases hfr : freshFrames > sf.frames
  · rw [if_pos hfr]
    refine ⟨by simp [hfr], fun _ => rfl, fun h => absurd hfr h, fun e => rfl⟩
  · rw [if_neg hfr]
    refine ⟨by simp [hfr], fun h => absurd h hfr, fun _ => rfl, fun e => rfl⟩

/-- Witness for C8: stale handle believes 3 total frames, 5 requested from
position 0 (short read of 3); the fresh parser reports 8 frames, so it is
adopted at position 0 and re-read once, yielding 5 frames × 2 bytes. -/
theorem soundFileReadAndFix_witness :
    ((soundFileReadAndFix 2 ⟨0, 3⟩ 5 6 10 8).replaced = decide (8 > 3))
    ∧ (soundFileReadAndFix 2 ⟨0, 3⟩ 5 6 10 8 =
        ⟨(bufferRead ⟨0, 8⟩ 5).1 * 2, (bufferRead ⟨0, 8⟩ 5).2, true⟩) := by
  have h := soundFileReadAndFix_replaces_only_on_more_frames 2 (by decide)
    ⟨0, 3⟩ 5 6 10 8 (by decide) (by decide)
  exact ⟨h.1, h.2.1 (by decide)⟩

/-! ## Network failure path (`_stream_downloader_function` line 527,
`begin_streaming` lines 460-473) -/

/-- The streamed HTTP response at the component boundary: a success flag
(`raise_for_status` raises exactly when it is false) and the lazy chunk
sequence delivered by `iter_content`. -/
structure StreamedResponse where
  ok : Bool
  chunks : List (List Nat)
  deriving Repr, DecidableEq

/-- A fresh downloader-visible state, as installed by the reset at the top
of `begin_streaming` (lines 461-466): empty buffer, every event cleared. -/
def downloadInit : DownloadState :=
  ⟨BytesFile.empty, false, false, false, false⟩

/-- The body of `_stream_downloader_function` run to completion in the
download thread: `raise_for_status()` first — on a non-success status the
thread raises and dies right there, before touching the buffer or any
event (`true` in the second component records the raise); otherwise every
chunk is appended in turn and, on stream exhaustion, `downloadDoneEvent`
and `blockDataAvailable` are set. -/
def downloaderThread (playbackBlockSize : Nat) (resp : StreamedResponse)
    (st : DownloadState) : DownloadState × Bool :=
  if resp.ok = false then (st, true)
  else
    let st' := resp.chunks.foldl (downloaderWriteChunk playbackBlockSize) st
    ({ st' with downloadDone := true, blockDataAvailable := true }, false)

/-- Result of the header phase of `begin_streaming` as observable by its
caller. -/
inductive HeaderPhaseResult where
  /-- the orchestrator thread sits forever in `headerReadyEvent.wait()`
  (line 473): no exception reaches the caller of `begin_streaming`, no
  playback callback is ever invoked, the session never finishes -/
  | blockedOnHeaderWait
  /-- header-ready was set; the session goes on to parser construction and
  streaming (modeled elsewhere) -/
  | proceeded (st : DownloadState)
  deriving Repr, DecidableEq

/-- `begin_streaming` up to its first wait: reset all state, spawn the
download thread, block on `headerReadyEvent.wait()`.  A Python thread that
raises terminates silently — its exception is never re-raised in the
spawning thread — so the orchestrator unblocks only if the downloader set
header-ready before dying. -/
def beginStreamingHeaderPhase (playbackBlockSize : Nat)
    (resp : StreamedResponse) : HeaderPhaseResult :=
  let r := downloaderThread playbackBlockSize resp downloadInit
  if r.1.headerReady = true then .proceeded r.1
  else .blockedOnHeaderWait

/-- **C6 counterexample.**  A non-success response with data pending:
`raise_for_status` raises inside the download thread before anything is
buffered or any event is set, and `begin_streaming` then blocks forever in
`headerReadyEvent.wait()` — the session does not reach a finished state
and no fatal error propagates to the caller of `begin_streaming` (contrary
to the claim); only the "no playback callbacks fire, nothing buffered"
half of the claim holds. -/
theorem network_failure_blocks_instead_of_propagating :
    downloaderThread 2048 ⟨false, [[1, 2, 3]]⟩ downloadInit = (downloadInit, true)
    ∧ beginStreamingHeaderPhase 2048 ⟨false, [[1, 2, 3]]⟩ = .blockedOnHeaderWait
    ∧ downloadInit.buf.data = []
    ∧ downloadInit.headerReady = false
    ∧ downloadInit.downloadDone = false := by
  refine ⟨rfl, ?_, rfl, rfl, rfl⟩
  rfl

/-- **C6 (amended).**  On a non-success response status the download
thread raises before appending any data or setting any event; the
exception stays inside that thread (it never propagates to the caller of
`begin_streaming`), no playback callback fires, nothing is buffered, and
`begin_streaming` blocks forever waiting for header-ready instead of
reaching a finished state. -/
theorem network_failure_confined_to_download_thread
    (playbackBlockSize : Nat) (resp : StreamedResponse)
    (hfail : resp.ok = false) :
    downloaderThread playbackBlockSize resp downloadInit = (downloadInit, true)
    ∧ beginStreamingHeaderPhase playbackBlockSize resp = .blockedOnHeaderWait := by
  have h1 : downloaderThread playbackBlockSize resp downloadInit
      = (downloadInit, true) := by
    unfold downloaderThread
    rw [if_pos hfail]
  refine ⟨h1, ?_⟩
  unfold beginStreamingHeaderPhase
  rw [h1]
  rfl

/-- Witness for the amended C6 at a concrete failing response. -/
theorem network_failure_confined_witness :
    downloaderThread 2048 ⟨false, [[7]]⟩ downloadInit = (downloadInit, true)
    ∧ beginStreamingHeaderPhase 2048 ⟨false, [[7]]⟩ = .blockedOnHeaderWait :=
  network_failure_confined_to_download_thread 2048 ⟨false, [[7]]⟩ rfl

/-! ## Header-ready/decoder-ready handshake (`begin_streaming` lines
471-488 and `_stream_downloader_function` lines 530-536) -/

/-- Program counter of the decoder-construction loop in `begin_streaming`. -/
inductive DecoderPc where
  /-- line 473: `headerReadyEvent.wait()` -/
  | waitHeader
  /-- lines 476-488: the `sf.SoundFile(...)` construction attempt -/
  | construct
  /-- `break` after a successful construction -/
  | done
  deriving Repr, DecidableEq

/-- Program counter of the downloader's per-chunk loop. -/
inductive DownloaderPc where
  /-- line 531: `if headerReadyEvent.is_set()` -/
  | checkHeader
  /-- line 533: `soundFileReadyEvent.wait()` -/
  | waitSoundFile
  /-- lines 543-559: the locked append -/
  | write
  deriving Repr, DecidableEq

/-- Joint state of the two threads for the handshake: both program
counters, the two events, and the read head / logical end of the shared
buffer. -/
structure HandshakeState where
  dpc : DecoderPc
  wpc : DownloaderPc
  headerReady : Bool
  soundFileReady : Bool
  pos : Nat
  dataLen : Nat
  deriving Repr, DecidableEq

/-- Atomic steps of the interleaved execution. -/
inductive HSLabel where
  /-- decoder: `headerReadyEvent.wait()` returns (enabled only when the
  event is set); construction attempt begins -/
  | dWake
  /-- decoder: construction succeeded — set `soundFileReadyEvent`, break -/
  | dSuccess
  /-- decoder: `sf.LibsndfileError` — rewind the read head to 0, clear
  `headerReadyEvent`, set `soundFileReadyEvent`, loop again (lines 482-488) -/
  | dFailure
  /-- downloader: `headerReadyEvent.is_set()` observed true — go wait for
  the soundfile -/
  | wCheckSet
  /-- downloader: `headerReadyEvent.is_set()` observed false — straight to
  the locked write -/
  | wCheckClear
  /-- downloader: `soundFileReadyEvent.wait()` returns (enabled only when
  the event is set); if `headerReadyEvent` was cleared meanwhile, clear
  `soundFileReadyEvent` again (lines 534-536) -/
  | wWaitPass
  /-- downloader: the locked append of a chunk of `chunkLen` bytes
  (lines 543-559), then on to the next chunk -/
  | wWrite (chunkLen : Nat)
  deriving Repr, DecidableEq

/-- Guarded transition function of the handshake; `none` when the label is
not enabled in the given state. -/
def hsStep (l : HSLabel) (s : HandshakeState) : Option HandshakeState :=
  match l with
  | .dWake =>
      if s.dpc = .waitHeader ∧ s.headerReady = true then
        some { s with dpc := .construct }
      else none
  | .dSuccess =>
      if s.dpc = .construct then
        some { s with dpc := .done, soundFileReady := true }
      else none
  | .dFailure =>
      if s.dpc = .construct then
        some { s with dpc := .waitHeader, pos := 0,
                      headerReady := false, soundFileReady := true }
      else none
  | .wCheckSet =>
      if s.wpc = .checkHeader ∧ s.headerReady = true then
        some { s with wpc := .waitSoundFile }
      else none
  | .wCheckClear =>
      if s.wpc = .checkHeader ∧ s.headerReady = false then
        some { s with wpc := .write }
      else none
  | .wWaitPass =>
      if s.wpc = .waitSoundFile ∧ s.soundFileReady = true then
        some { s with wpc := .write,
                      soundFileReady := if s.headerReady then s.soundFileReady
                                        else false }
      else none
  | .wWrite n =>
      if s.wpc = .write then
        if s.headerReady = false then
          some { s with wpc := .checkHeader, dataLen := s.dataLen + n,
                        pos := 0, headerReady := true }
        else
          some { s with wpc := .checkHeader, dataLen := s.dataLen + n }
      else none

/-- Run a trace of labels from a state; `none` if some label was not
enabled. -/
def hsRun : List HSLabel → HandshakeState → Option HandshakeState
  | [], s => some s
  | l :: ls, s =>
      match hsStep l s with
      | none => none
      | some s' => hsRun ls s'

/-- The session-start state: both threads at the top of their loops, all
events clear, empty buffer. -/
def hsInit : HandshakeState :=
  ⟨.waitHeader, .checkHeader, false, false, 0, 0⟩

/-- The handshake invariant is preserved by every enabled step: if the
decoder is mid-construction then header-ready is set. -/
theorem hsStep_preserves_construct_headerReady (l : HSLabel)
    (s s' : HandshakeState)
    (hinv : s.dpc = .construct → s.headerReady = true)
    (hstep : hsStep l s = some s') :
    s'.dpc = .construct → s'.headerReady = true := by
  cases l with
  | dWake =>
      simp only [hsStep] at hstep
      split_ifs at hstep with h
      cases hstep
      intro _
      exact h.2
  | dSuccess =>
      simp only [hsStep] at hstep
      split_ifs at hstep with h
      cases hstep
      intro hc
      exact absurd hc (by simp)
  | dFailure =>
      simp only [hsStep] at hstep
      split_ifs at hstep with h
      cases hstep
      intro hc
      exact absurd hc (by simp)
  | wCheckSet =>
      simp only [hsStep] at hstep
      split_ifs at hstep with h
      cases hstep
      exact hinv
  | wCheckClear =>
      simp only [hsStep] at hstep
      split_ifs at hstep with h
      cases hstep
      exact hinv
  | wWaitPass =>
      simp only [hsStep] at hstep
      split_ifs at hstep with h h2
      all_goals (cases hstep; exact hinv)
  | wWrite n =>
      simp only [hsStep] at hstep
      split_ifs at hstep with h h2
      · cases hstep
        intro _
        rfl
      · cases hstep
        exact hinv

theorem hsRun_preserves_construct_headerReady (tr : List HSLabel)
    (s s' : HandshakeState)
    (hinv : s.dpc = .construct → s.headerReady = true)
    (hrun : hsRun tr s = some s') :
    s'.dpc = .construct → s'.headerReady = true := by
  induction tr generalizing s with
  | nil =>
      unfold hsRun at hrun
      cases hrun
      exact hinv
  | cons l ls ih =>
      unfold hsRun at hrun
      cases hstep : hsStep l s with
      | none => rw [hstep] at hrun; cases hrun
      | some s1 =>
          rw [hstep] at hrun
          exact ih s1 (hsStep_preserves_construct_headerReady l s s1 hinv hstep) hrun

/-- **C7.**  In every state reachable from the session start, the decoder
is attempting parser construction only while header-ready is set; the
failed-construction step rewinds the read head to the start, clears
header-ready and sets decoder-ready; and a downloader that observed
header-ready set cannot reach its append in one step — it first moves to
the decoder-ready wait, which it passes only when decoder-ready is set. -/
theorem handshake_invariant (tr : List HSLabel) (s : HandshakeState)
    (hrun : hsRun tr hsInit = some s) :
    (s.dpc = .construct → s.headerReady = true)
    ∧ (∀ s₀ s₁ : HandshakeState, hsStep .dFailure s₀ = some s₁ →
        s₁.pos = 0 ∧ s₁.headerReady = false ∧ s₁.soundFileReady = true)
    ∧ (∀ (l : HSLabel) (s₀ s₁ : HandshakeState), hsStep l s₀ = some s₁ →
        s₀.wpc = .checkHeader → s₀.headerReady = true → s₁.wpc ≠ .write)
    ∧ (∀ (l : HSLabel) (s₀ s₁ : HandshakeState), hsStep l s₀ = some s₁ →
        s₀.wpc = .waitSoundFile → s₁.wpc = .write → s₀.soundFileReady = true) := by
  refine ⟨?_, ?_, ?_, ?_⟩
  · exact hsRun_preserves_construct_headerReady tr hsInit s (by intro h; cases h) hrun
  · intro s₀ s₁ hstep
    simp only [hsStep] at hstep
    split_ifs at hstep with h
    cases hstep
    exact ⟨rfl, rfl, rfl⟩
  · intro l s₀ s₁ hstep hw hh
    cases l with
    | dWake =>
        simp only [hsStep] at hstep
        split_ifs at hstep with h
        cases hstep
        simp [hw]
    | dSuccess =>
        simp only [hsStep] at hstep
        split_ifs at hstep with h
        cases hstep
        simp [hw]
    | dFailure =>
        simp only [hsStep] at hstep
        split_ifs at hstep with h
        cases hstep
        simp [hw]
    | wCheckSet =>
        simp only [hsStep] at hstep
        split_ifs at hstep with h
        cases hstep
        simp
    | wCheckClear =>
        simp only [hsStep] at hstep
        split_ifs at hstep with h
        exact absurd h.2 (by simp [hh])
    | wWaitPass =>
        simp only [hsStep] at hstep
        split_ifs at hstep with h h2
        all_goals exact absurd h.1 (by simp [hw])
    | wWrite n =>
        simp only [hsStep] at hstep
        split_ifs at hstep with h h2 <;> exact absurd h (by simp [hw])
  · intro l s₀ s₁ hstep hw hw'
    cases l with
    | dWake =>
        simp only [hsStep] at hstep
        split_ifs at hstep with h
        cases hstep
        exact absurd hw' (by simp [hw])
    | dSuccess =>
        simp only [hsStep] at hstep
        split_ifs at hstep with h
        cases hstep
        exact absurd hw' (by simp [hw])
    | dFailure =>
        simp only [hsStep] at hstep
        split_ifs at hstep with h
        cases hstep
        exact absurd hw' (by simp [hw])
    | wCheckSet =>
        simp only [hsStep] at hstep
        split_ifs at hstep with h
        exact absurd h.1 (by simp [hw])
    | wCheckClear =>
        simp only [hsStep] at hstep
        split_ifs at hstep with h
        exact absurd h.1 (by simp [hw])
    | wWaitPass =>
        simp only [hsStep] at hstep
        split_ifs at hstep with h h2
        all_goals exact h.2
    | wWrite n =>
        simp only [hsStep] at hstep
        split_ifs at hstep with h h2 <;> exact absurd h (by simp [hw])

/-- Witness for C7: the trace "first chunk written (sets header-ready),
decoder wakes" reaches a state where the decoder is constructing, and
header-ready is indeed set there. -/
theorem handshake_invariant_witness :
    (⟨.construct, .checkHeader, true, false, 0, 10⟩ : HandshakeState).headerReady
      = true :=
  (handshake_invariant [.wCheckClear, .wWrite 10, .dWake]
    ⟨.construct, .checkHeader, true, false, 0, 10⟩ (by decide)).1 rfl

/-! ## Block-available after download-done (`_get_data_from_download_thread`
lines 654-656, `_stream_downloader_function` lines 561-563) -/

/-- Position of the feed-loop thread inside the guarded clear of
`blockDataAvailable`: `idle` — outside the check; `clearPending` — the
test `remainingBytes < _playbackBlockSize and not downloadDoneEvent.is_set()`
evaluated true but `clear()` has not executed yet; `noClear` — the test
evaluated false. -/
inductive ClearPc where
  | idle
  | clearPending
  | noClear
  deriving Repr, DecidableEq

/-- The two events involved plus the feed-loop position; `remainingLow`
abstracts `remainingBytes < _playbackBlockSize` at the moment of the
check. -/
structure AvailState where
  downloadDone : Bool
  blockDataAvailable : Bool
  remainingLow : Bool
  fpc : ClearPc
  deriving Repr, DecidableEq

/-- Atomic steps around the guarded clear: the feed loop's test and
clear/skip are separate steps (the test and the `clear()` are distinct
statements, not atomic), and the downloader's final `downloadDoneEvent.set()`
and `blockDataAvailable.set()` are separate steps too. -/
inductive AvailLabel where
  | check
  | clear
  | skip
  | setDone
  | setAvail
  deriving Repr, DecidableEq

def availStep (l : AvailLabel) (s : AvailState) : Option AvailState :=
  match l with
  | .check =>
      if s.fpc = .idle then
        some { s with fpc := if s.remainingLow ∧ s.downloadDone = false
                             then .clearPending else .noClear }
      else none
  | .clear =>
      if s.fpc = .clearPending then
        some { s with blockDataAvailable := false, fpc := .idle }
      else none
  | .skip =>
      if s.fpc = .noClear then some { s with fpc := .idle } else none
  | .setDone => some { s with downloadDone := true }
  | .setAvail => some { s with blockDataAvailable := true }

def availRun : List AvailLabel → AvailState → Option AvailState
  | [], s => some s
  | l :: ls, s =>
      match availStep l s with
      | none => none
      | some s' => availRun ls s'

/-- **C10 counterexample.**  The feed loop's guard and its `clear()` are
two separate steps, not atomic with the downloader's final
`set downloadDone; set blockDataAvailable`: in the interleaving below the
guard observes download-done still clear, the downloader then completes
(setting both events), and the already-enabled `clear()` then clears
block-available — after download-done was set.  A feed loop that
subsequently waits on block-available blocks although the download is
complete. -/
theorem blockAvailable_cleared_after_done_counterexample :
    availRun [.check, .setDone, .setAvail] ⟨false, true, true, .idle⟩
      = some ⟨true, true, true, .clearPending⟩
    ∧ availRun [.check, .setDone, .setAvail, .clear] ⟨false, true, true, .idle⟩
      = some ⟨true, false, true, .idle⟩ := by
  constructor <;> rfl

/-- **C10 (amended).**  Block-available is cleared only by the feed loop's
guarded clear, and the guard enables it only when it observed download-done
unset; therefore, from any state in which download-done is set and no such
stale clear is pending, block-available — once set — is never cleared again
by any interleaving, and download-done stays set. -/
theorem blockAvailable_stable_after_done (tr : List AvailLabel)
    (s s' : AvailState)
    (hdone : s.downloadDone = true) (hnp : s.fpc ≠ .clearPending)
    (havail : s.blockDataAvailable = true)
    (hrun : availRun tr s = some s') :
    s'.blockDataAvailable = true ∧ s'.downloadDone = true := by
  induction tr generalizing s with
  | nil =>
      unfold availRun at hrun
      cases hrun
      exact ⟨havail, hdone⟩
  | cons l ls ih =>
      unfold availRun at hrun
      cases hstep : availStep l s with
      | none => rw [hstep] at hrun; cases hrun
      | some s1 =>
          rw [hstep] at hrun
          have hkeep : s1.downloadDone = true ∧ s1.fpc ≠ .clearPending
              ∧ s1.blockDataAvailable = true := by
            cases l with
            | check =>
                simp only [availStep] at hstep
                split_ifs at hstep with h hcond
                · exact absurd hcond.2 (by simp [hdone])
                · cases hstep
                  exact ⟨hdone, by simp, havail⟩
            | clear =>
                simp only [availStep] at hstep
                split_ifs at hstep with h
                exact absurd h hnp
            | skip =>
                simp only [availStep] at hstep
                split_ifs at hstep with h
                cases hstep
                exact ⟨hdone, by simp, havail⟩
            | setDone =>
                simp only [availStep] at hstep
                cases hstep
                exact ⟨rfl, hnp, havail⟩
            | setAvail =>
                simp only [availStep] at hstep
                cases hstep
                exact ⟨hdone, hnp, rfl⟩
          exact ih s1 hkeep.1 hkeep.2.1 hkeep.2.2 hrun

/-- Witness for the amended C10: after the downloader completed (both
events set, no stale clear pending), a later check-and-skip plus another
set leave block-available set. -/
theorem blockAvailable_stable_witness :
    (⟨true, true, true, .idle⟩ : AvailState).blockDataAvailable = true
    ∧ (⟨true, true, true, .idle⟩ : AvailState).downloadDone = true := by
  have h := blockAvailable_stable_after_done [.check, .skip, .setAvail]
    ⟨true, true, true, .idle⟩ ⟨true, true, true, .idle⟩
    rfl (by decide) rfl (by decide)
  exact h

end ElevenLabsLib
